import Mathlib

/-!
Verification of the City-Pulse trend subsystem.

Shallow embedding of the trend ranking and maintenance core of the
City-Pulse backend: `src/app/routers/trends.py`, `src/app/region_map.py`
and the relevant tables of `src/app/models.py`.

Modelling conventions:
* Database tables are Lean lists of records; SQLAlchemy primary keys are
  plain `Nat` fields.  The surrogate autoincrement `id` of the `trends`
  table is omitted, since no logic reads it.
* `datetime` timestamps are modelled as `Nat`.
* Python's stable `sorted`/`list.sort` is modelled by Mathlib's stable
  `List.insertionSort` over the decidable total preorder induced by the
  sort key (`_order_key` in the source).
* Python dicts keyed by event id (`_get_event_interaction_counts`) are
  modelled as association lists in event-enumeration order; under the
  primary-key uniqueness invariant of the `events` table the two agree.
* A `fastapi.HTTPException` (and the `MultipleResultsFound` raised by
  `scalar_one_or_none`) is modelled by `Except` with an `ApiError` code.
-/

namespace CityPulse

/-! Data model, following `src/app/models.py`. -/

/-- Row of the `events` table (`Event` model). -/
structure EventRec where
  id : Nat
  region_id : Nat
  user_id : Option Nat
  title : String
deriving DecidableEq

/-- Row of the `event_likes` / `event_attending` tables
(`EventLike`, `EventAttending` models): one user interacting with one event. -/
structure InteractionRec where
  id : Nat
  user_id : Nat
  event_id : Nat
deriving DecidableEq

/-- Row of the `event_comments` table (`EventComment` model). -/
structure CommentRec where
  id : Nat
  user_id : Nat
  event_id : Nat
  text : String
deriving DecidableEq

/-- Row of the `trends` table (`Trend` model): cached per-region ranked entry. -/
structure TrendRec where
  region_id : Nat
  event_id : Nat
  rank : Nat
  attendance_count : Nat
  comments_count : Nat
  likes_count : Nat
  updated_at : Nat
deriving DecidableEq

/-- The persistent store: one list per table. -/
structure DB where
  events : List EventRec
  likes : List InteractionRec
  comments : List CommentRec
  attending : List InteractionRec
  trends : List TrendRec
deriving DecidableEq

/-! Region resolution, following `src/app/region_map.py`. -/

/-- A region token as accepted at the API boundary: `str | int` in Python. -/
inductive RegionParam where
  | str (s : String)
  | int (i : Int)
deriving DecidableEq

/-- `REGION_SAN_DIEGO_ID = 0` in `region_map.py`. -/
def REGION_SAN_DIEGO_ID : Nat := 0

/-- Python `str.isspace` membership for the characters `str.strip` removes
(ASCII whitespace). -/
def pyIsSpace (c : Char) : Bool :=
  c = ' ' || c = '\t' || c = '\n' || c = '\r' || c = '\x0b' || c = '\x0c'

/-- Python `value.strip()`: drop leading and trailing whitespace. -/
def pyStrip (s : String) : String :=
  ⟨((s.data.dropWhile pyIsSpace).reverse.dropWhile pyIsSpace).reverse⟩

/-- Python `value.lower()` (ASCII letters). -/
def pyLower (s : String) : String :=
  ⟨s.data.map Char.toLower⟩

/-- Python `s.replace ("-", " ")`: every hyphen becomes a space. -/
def pyReplaceDash (s : String) : String :=
  ⟨s.data.map (fun c => if c = '-' then ' ' else c)⟩

/-- Model of `parse_region_param` in `region_map.py`: accepts the integer 0,
a string whose stripped lowercase form is `"0"`, or a string normalizing
(strip, lower, hyphen to space) to `"san diego"`; raises `ValueError`
(modelled as `.error` with the message) otherwise. -/
def parse_region_param : RegionParam → Except String Nat
  | .int v =>
      if v = 0 then .ok REGION_SAN_DIEGO_ID
      else .error "Unknown region id. Only 0 (san diego) is supported."
  | .str v =>
      let s := pyLower (pyStrip v)
      if s = "0" then .ok REGION_SAN_DIEGO_ID
      else if pyReplaceDash s = "san diego" then .ok REGION_SAN_DIEGO_ID
      else .error "Unknown region. Only san diego or 0 is supported."

/-! Error taxonomy of the trend endpoints, with their HTTP status codes. -/

/-- Errors surfaced by the three trend endpoints. -/
inductive ApiError where
  | invalidRegion
  | eventNotFound
  | internalError
deriving DecidableEq

/-- HTTP status code attached to each error by the routers. -/
def ApiError.status : ApiError → Nat
  | .invalidRegion => 400
  | .eventNotFound => 404
  | .internalError => 500

/-! Interaction counting, following `_get_event_interaction_counts`. -/

/-- Count of rows of a set-membership interaction table for one event
(`func.count` grouped by `event_id`, with absent groups defaulting to 0). -/
def countFor (rows : List InteractionRec) (eid : Nat) : Nat :=
  (rows.filter (fun r => r.event_id == eid)).length

/-- Count of comment rows for one event. -/
def countComments (rows : List CommentRec) (eid : Nat) : Nat :=
  (rows.filter (fun r => r.event_id == eid)).length

/-- Model of `_get_event_interaction_counts db region_id`: for every event of
the region, in enumeration order, the tuple
`(event_id, attendance_count, comments_count, likes_count)`. -/
def _get_event_interaction_counts (db : DB) (region_id : Nat) :
    List (Nat × Nat × Nat × Nat) :=
  (db.events.filter (fun e => e.region_id == region_id)).map
    (fun e => (e.id, countFor db.attending e.id, countComments db.comments e.id,
               countFor db.likes e.id))

/-- Model of `counts.get (event_id, (0, 0, 0))` on the counts mapping. -/
def liveCountsOf (db : DB) (region_id eid : Nat) : Nat × Nat × Nat :=
  (((_get_event_interaction_counts db region_id).find? (fun c => c.1 == eid)).map
    (fun c => c.2)).getD (0, 0, 0)

/-! The sort key and the order it induces, following `_order_key`. -/

/-- Model of `_order_key`: negated counts, so that ascending lexicographic
order on the key is descending (attendance, comments, likes) priority. -/
def _order_key (item : Nat × Nat × Nat × Nat) : Int × Int × Int :=
  (-(item.2.1 : Int), -(item.2.2.1 : Int), -(item.2.2.2 : Int))

/-- Lexicographic order on integer triples: how Python compares the tuples
produced by `_order_key`. -/
def intTripleLe (x y : Int × Int × Int) : Prop :=
  x.1 < y.1 ∨ (x.1 = y.1 ∧ (x.2.1 < y.2.1 ∨ (x.2.1 = y.2.1 ∧ x.2.2 ≤ y.2.2)))

instance : DecidableRel intTripleLe := fun x y => by
  unfold intTripleLe; infer_instance

theorem intTripleLe_total (x y : Int × Int × Int) :
    intTripleLe x y ∨ intTripleLe y x := by
  obtain ⟨a, b, c⟩ := x
  obtain ⟨d, e, f⟩ := y
  simp only [intTripleLe]
  omega

theorem intTripleLe_trans {x y z : Int × Int × Int}
    (h1 : intTripleLe x y) (h2 : intTripleLe y z) : intTripleLe x z := by
  obtain ⟨a, b, c⟩ := x
  obtain ⟨d, e, f⟩ := y
  obtain ⟨g, i, j⟩ := z
  simp only [intTripleLe] at h1 h2 ⊢
  omega

/-- The total preorder on count entries used by the repository's sorts:
`entryLe a b` holds when `_order_key a ≤ _order_key b` lexicographically,
that is when `a`'s counts rank at least as high as `b`'s. -/
def entryLe (a b : Nat × Nat × Nat × Nat) : Prop :=
  intTripleLe (_order_key a) (_order_key b)

instance : DecidableRel entryLe := fun a b => by
  unfold entryLe; infer_instance

instance : IsTotal (Nat × Nat × Nat × Nat) entryLe :=
  ⟨fun a b => intTripleLe_total _ _⟩

instance : IsTrans (Nat × Nat × Nat × Nat) entryLe :=
  ⟨fun _ _ _ h1 h2 => intTripleLe_trans h1 h2⟩

/-- The count entry stored in a trend row, as rebuilt by the update
endpoint's sort lambda. -/
def trendEntry (t : TrendRec) : Nat × Nat × Nat × Nat :=
  (t.event_id, t.attendance_count, t.comments_count, t.likes_count)

/-- Order on trend rows by their stored snapshot counts, descending
(attendance, comments, likes): the relation the update endpoint sorts by. -/
def trendLe (t u : TrendRec) : Prop :=
  entryLe (trendEntry t) (trendEntry u)

instance : DecidableRel trendLe := fun t u => by
  unfold trendLe; infer_instance

instance : IsTotal TrendRec trendLe :=
  ⟨fun a b => intTripleLe_total _ _⟩

instance : IsTrans TrendRec trendLe :=
  ⟨fun _ _ _ h1 h2 => intTripleLe_trans h1 h2⟩

/-- Order on trend rows by stored rank: the `ORDER BY rank` of the reads. -/
def rankLe (t u : TrendRec) : Prop :=
  t.rank ≤ u.rank

instance : DecidableRel rankLe := fun t u => by
  unfold rankLe; infer_instance

instance : IsTotal TrendRec rankLe :=
  ⟨fun a b => Nat.le_total a.rank b.rank⟩

instance : IsTrans TrendRec rankLe :=
  ⟨fun _ _ _ h1 h2 => Nat.le_trans h1 h2⟩

/-! The rebuild endpoint (`POST /api/trends`, `rebuild_trends`). -/

/-- The ranking step of `rebuild_trends`: stable-sort the count entries by
`_order_key` and assign ranks `1..N` by `enumerate (sorted_events, start := 1)`,
materialising one trend row per entry with the shared fresh timestamp. -/
def rankEntries (entries : List (Nat × Nat × Nat × Nat)) (region_id now : Nat) :
    List TrendRec :=
  ((entries.insertionSort entryLe).enumFrom 1).map (fun p =>
    { region_id := region_id
      event_id := p.2.1
      rank := p.1
      attendance_count := p.2.2.1
      comments_count := p.2.2.2.1
      likes_count := p.2.2.2.2
      updated_at := now })

/-- Model of `rebuild_trends`: resolve the region (400 on failure), recompute
all counts; on an empty region delete the region's trend rows and answer
count 0; otherwise delete the region's trend rows and insert the freshly
ranked list, answering its length. -/
def rebuild_trends (db : DB) (region : RegionParam) (now : Nat) :
    Except ApiError (DB × Nat) :=
  match parse_region_param region with
  | .error _ => .error .invalidRegion
  | .ok region_id =>
      let counts := _get_event_interaction_counts db region_id
      if counts.isEmpty then
        .ok ({ db with trends := db.trends.filter (fun t => t.region_id != region_id) }, 0)
      else
        .ok ({ db with trends :=
                 db.trends.filter (fun t => t.region_id != region_id)
                   ++ rankEntries counts region_id now },
             counts.length)

/-! The update endpoint (`PUT /api/trends`, `update_trends`). -/

/-- Request body of the update endpoint (`TrendUpdateBody` in `schemas.py`):
region token, target event, and an optional requested rank. -/
structure TrendUpdateBody where
  region : RegionParam
  event_id : Nat
  rank : Option Nat
deriving DecidableEq

/-- The key predicate of the upsert: rows of this region for this event. -/
def trendKeyP (rid eid : Nat) (t : TrendRec) : Bool :=
  t.region_id == rid && t.event_id == eid

/-- Model of `func.coalesce (func.max (Trend.rank), 0)` over one region. -/
def maxRank (trends : List TrendRec) (rid : Nat) : Nat :=
  ((trends.filter (fun t => t.region_id == rid)).map (fun t => t.rank)).foldr max 0

/-- The fresh row built by the upsert's insert branch: appended at the bottom
with rank `max rank in region + 1`. -/
def insertedRow (trends : List TrendRec) (rid eid a c l now : Nat) : TrendRec :=
  { region_id := rid, event_id := eid, rank := maxRank trends rid + 1,
    attendance_count := a, comments_count := c, likes_count := l,
    updated_at := now }

/-- The upsert step of `update_trends` (lines 151-174 of `trends.py`): if a
row for `(rid, eid)` exists its counts and timestamp are overwritten in
place (rank kept); otherwise a new row is appended with rank
`max rank in region + 1`. -/
def upsertTrend (trends : List TrendRec) (rid eid a c l now : Nat) :
    List TrendRec :=
  if (trends.filter (trendKeyP rid eid)).isEmpty then
    trends ++ [insertedRow trends rid eid a c l now]
  else
    trends.map (fun t =>
      if trendKeyP rid eid t then
        { t with attendance_count := a, comments_count := c, likes_count := l,
                 updated_at := now }
      else t)

/-- The renumbering step of `update_trends` (`enumerate (rows, start := 1)`
writing each row's rank): rank becomes the 1-based list position. -/
def renumber (l : List TrendRec) : List TrendRec :=
  (l.enumFrom 1).map (fun p => { p.2 with rank := p.1 })

/-- Body of `update_trends` after region resolution: event existence and
region membership check (404), live count recomputation for the whole
region, upsert of the target row (500 if the unique constraint is broken
and several rows match, as `scalar_one_or_none` raises), then stable
reorder of all of the region's rows by their stored counts and dense
renumbering `1..N`. -/
def update_trends_core (db : DB) (rid eid now : Nat) : Except ApiError DB :=
  match db.events.find? (fun e => e.id == eid) with
  | none => .error .eventNotFound
  | some event =>
      if event.region_id = rid then
        if 2 ≤ (db.trends.filter (trendKeyP rid eid)).length then
          .error .internalError
        else
          let lc := liveCountsOf db rid eid
          let trends1 := upsertTrend db.trends rid eid lc.1 lc.2.1 lc.2.2 now
          let rows1 := (trends1.filter (fun t => t.region_id == rid)).insertionSort rankLe
          let rows2 := rows1.insertionSort trendLe
          .ok { db with trends :=
                  trends1.filter (fun t => t.region_id != rid) ++ renumber rows2 }
      else .error .eventNotFound

/-- Model of `update_trends`: resolve the region (400 on failure) and run the
core.  The body's optional `rank` field is never read by the endpoint. -/
def update_trends (db : DB) (payload : TrendUpdateBody) (now : Nat) :
    Except ApiError DB :=
  match parse_region_param payload.region with
  | .error _ => .error .invalidRegion
  | .ok region_id => update_trends_core db region_id payload.event_id now

/-- The observable transaction of the update endpoint: on success the new
store, on any raised error a rollback to the unchanged store plus the error. -/
def runUpdate (db : DB) (payload : TrendUpdateBody) (now : Nat) :
    DB × Option ApiError :=
  match update_trends db payload now with
  | .ok db2 => (db2, none)
  | .error e => (db, some e)

/-! The read endpoint (`GET /api/trends`, `get_trends`). -/

/-- One element of the read endpoint's response (`TrendEntryRead`). -/
structure TrendEntryRead where
  event_id : Nat
  rank : Nat
  title : String
  attendance_count : Nat
  comments_count : Nat
  likes_count : Nat
  updated_at : Nat
deriving DecidableEq

/-- Model of `get_trends`: resolve the region (400 on failure), read the
region's trend rows ordered by rank INNER JOINed with `events` on
`Event.id = Trend.event_id` (a trend row without a matching event is
dropped by the join), and paginate with `offset skip` / `limit`. -/
def get_trends (db : DB) (region : RegionParam) (skip lim : Nat) :
    Except ApiError (List TrendEntryRead) :=
  match parse_region_param region with
  | .error _ => .error .invalidRegion
  | .ok region_id =>
      let rows :=
        ((db.trends.filter (fun t => t.region_id == region_id)).insertionSort rankLe).filterMap
          (fun t => (db.events.find? (fun e => e.id == t.event_id)).map
            (fun e => { event_id := t.event_id, rank := t.rank, title := e.title,
                        attendance_count := t.attendance_count,
                        comments_count := t.comments_count,
                        likes_count := t.likes_count,
                        updated_at := t.updated_at : TrendEntryRead }))
      .ok ((rows.drop skip).take lim)

/-! Helper lemmas about the stable sort and the ranking step. -/

/-- A stable sort does not move elements around inside one equivalence class
of the sort key: filtering by a class predicate commutes with the sort. -/
theorem filter_insertionSort_class {α : Type} (r : α → α → Prop) [DecidableRel r]
    (l : List α) (p : α → Bool) (hp : ∀ a b, p a = true → p b = true → r a b) :
    (l.insertionSort r).filter p = l.filter p := by
  have hpl : (l.filter p).Pairwise r :=
    List.pairwise_of_forall_mem_list (fun a ha b hb =>
      hp a b (List.mem_filter.mp ha).2 (List.mem_filter.mp hb).2)
  have h1 : List.Sublist (l.filter p) (l.insertionSort r) :=
    List.sublist_insertionSort hpl (List.filter_sublist l)
  have h2 := h1.filter p
  have hfp : (l.filter p).filter p = l.filter p :=
    List.filter_eq_self.mpr (fun a ha => (List.mem_filter.mp ha).2)
  rw [hfp] at h2
  have hlen : (l.filter p).length = ((l.insertionSort r).filter p).length :=
    (((List.perm_insertionSort r l).filter p).length_eq).symm
  exact (h2.eq_of_length hlen).symm

theorem rankEntries_map_trendEntry (entries : List (Nat × Nat × Nat × Nat))
    (rid now : Nat) :
    (rankEntries entries rid now).map trendEntry = entries.insertionSort entryLe := by
  unfold rankEntries
  rw [List.map_map]
  exact List.enumFrom_map_snd 1 (entries.insertionSort entryLe)

theorem rankEntries_map_rank (entries : List (Nat × Nat × Nat × Nat))
    (rid now : Nat) :
    (rankEntries entries rid now).map (fun t => t.rank) = List.range' 1 entries.length := by
  unfold rankEntries
  rw [List.map_map]
  have h := List.enumFrom_map_fst 1 (entries.insertionSort entryLe)
  rw [List.length_insertionSort] at h
  exact h

theorem rankEntries_region (entries : List (Nat × Nat × Nat × Nat))
    (rid now : Nat) :
    ∀ t ∈ rankEntries entries rid now, t.region_id = rid := by
  intro t ht
  simp only [rankEntries, List.mem_map] at ht
  obtain ⟨p, _, rfl⟩ := ht
  rfl

theorem rankEntries_pairwise (entries : List (Nat × Nat × Nat × Nat))
    (rid now : Nat) :
    (rankEntries entries rid now).Pairwise trendLe := by
  have hs : ((rankEntries entries rid now).map trendEntry).Pairwise entryLe := by
    rw [rankEntries_map_trendEntry]
    exact List.sorted_insertionSort entryLe entries
  rw [List.pairwise_map] at hs
  exact hs

/-! Claim theorems. -/

/-- C1: the ranking the rebuild operation produces is sorted so that every
earlier entry's (attendance, comments, likes) triple is lexicographically
at least every later one's under descending priority (stated for adjacent
pairs via `Chain'`); the assigned ranks are exactly `1..N`; and entries
whose count triples are all equal keep their relative input order (the
sort is a stable function of the input enumeration). -/
theorem rebuild_ranking_sorted_dense_stable (entries : List (Nat × Nat × Nat × Nat))
    (rid now : Nat) (t : Nat × Nat × Nat) :
    (rankEntries entries rid now).Chain' trendLe
    ∧ (rankEntries entries rid now).map (fun r => r.rank) = List.range' 1 entries.length
    ∧ ((rankEntries entries rid now).map trendEntry).filter (fun e => decide (e.2 = t))
        = entries.filter (fun e => decide (e.2 = t)) := by
  refine ⟨(rankEntries_pairwise entries rid now).chain', rankEntries_map_rank entries rid now, ?_⟩
  rw [rankEntries_map_trendEntry]
  refine filter_insertionSort_class entryLe entries _ (fun a b ha hb => ?_)
  have ha2 : a.2 = t := of_decide_eq_true ha
  have hb2 : b.2 = t := of_decide_eq_true hb
  obtain ⟨t1, t2, t3⟩ := t
  simp [entryLe, intTripleLe, _order_key, ha2, hb2]

theorem mem_of_mem_enumFrom {α : Type} {p : Nat × α} :
    ∀ {n : Nat} {l : List α}, p ∈ l.enumFrom n → n ≤ p.1 ∧ p.2 ∈ l := by
  intro n l
  induction l generalizing n with
  | nil => intro hp; cases hp
  | cons a l ih =>
      intro hp
      simp only [List.enumFrom] at hp
      rcases List.mem_cons.mp hp with heq | hp
      · subst heq
        exact ⟨Nat.le_refl _, List.mem_cons_self a l⟩
      · obtain ⟨h1, h2⟩ := ih hp
        exact ⟨Nat.le_of_succ_le h1, List.mem_cons_of_mem a h2⟩

theorem snd_mem_of_mem_enumFrom {α : Type} {p : Nat × α} {n : Nat} {l : List α}
    (hp : p ∈ l.enumFrom n) : p.2 ∈ l :=
  (mem_of_mem_enumFrom hp).2

theorem exists_enumFrom_of_mem {α : Type} {c : α} {n : Nat} {l : List α}
    (hc : c ∈ l) : ∃ p ∈ l.enumFrom n, p.2 = c := by
  have h2 : c ∈ (l.enumFrom n).map Prod.snd := by
    rw [List.enumFrom_map_snd]; exact hc
  obtain ⟨p, hp, hpc⟩ := List.mem_map.mp h2
  exact ⟨p, hp, hpc⟩

/-- Every event id carried by the ranked rows is an entry key, and conversely. -/
theorem rankEntries_event_mem (entries : List (Nat × Nat × Nat × Nat))
    (rid now e : Nat) :
    (∃ t ∈ rankEntries entries rid now, t.event_id = e) ↔ ∃ c ∈ entries, c.1 = e := by
  constructor
  · rintro ⟨t, ht, rfl⟩
    simp only [rankEntries, List.mem_map] at ht
    obtain ⟨p, hp, rfl⟩ := ht
    exact ⟨p.2, (List.perm_insertionSort entryLe entries).mem_iff.mp
      (snd_mem_of_mem_enumFrom hp), rfl⟩
  · rintro ⟨c, hc, rfl⟩
    have hc2 : c ∈ entries.insertionSort entryLe :=
      (List.perm_insertionSort entryLe entries).mem_iff.mpr hc
    obtain ⟨p, hp, hpc⟩ := exists_enumFrom_of_mem (n := 1) hc2
    refine ⟨_, List.mem_map.mpr ⟨p, hp, rfl⟩, ?_⟩
    simp [hpc]

/-- The keys of the count mapping are exactly the region's event ids. -/
theorem counts_key_mem (db : DB) (rid e : Nat) :
    (∃ c ∈ _get_event_interaction_counts db rid, c.1 = e) ↔
      ∃ ev ∈ db.events, ev.region_id = rid ∧ ev.id = e := by
  simp only [_get_event_interaction_counts, List.mem_map, List.mem_filter]
  constructor
  · rintro ⟨c, ⟨ev, ⟨hev, hevr⟩, rfl⟩, rfl⟩
    exact ⟨ev, hev, by simpa using hevr, rfl⟩
  · rintro ⟨ev, hev, hevr, rfl⟩
    exact ⟨_, ⟨ev, ⟨hev, by simpa using hevr⟩, rfl⟩, rfl⟩

/-- C3: after a successful rebuild the region's stored event ids are exactly
the region's event ids (zero-interaction events included); a region with no
events ends with an empty list (any prior rows cleared) and count 0. -/
theorem rebuild_completeness (db : DB) (region : RegionParam) (now rid : Nat)
    (db2 : DB) (n : Nat)
    (hrid : parse_region_param region = Except.ok rid)
    (h : rebuild_trends db region now = Except.ok (db2, n)) :
    (∀ e : Nat, (∃ t ∈ db2.trends, t.region_id = rid ∧ t.event_id = e) ↔
        (∃ ev ∈ db.events, ev.region_id = rid ∧ ev.id = e))
    ∧ (db.events.filter (fun ev => ev.region_id == rid) = [] →
        n = 0 ∧ db2.trends.filter (fun t => t.region_id == rid) = []) := by
  simp only [rebuild_trends, hrid] at h
  split at h
  case isTrue hempty =>
    rw [Except.ok.injEq, Prod.mk.injEq] at h
    obtain ⟨hdb, hn⟩ := h
    subst hdb
    have hfil : db.events.filter (fun e => e.region_id == rid) = [] := by
      have := List.isEmpty_iff.mp hempty
      simpa only [_get_event_interaction_counts, List.map_eq_nil_iff] using this
    constructor
    · intro e
      constructor
      · rintro ⟨t, ht, htr, -⟩
        have := (List.mem_filter.mp ht).2
        rw [bne_iff_ne] at this
        exact absurd htr this
      · rintro ⟨ev, hev, hevr, -⟩
        have : ev ∈ db.events.filter (fun e => e.region_id == rid) :=
          List.mem_filter.mpr ⟨hev, by simpa using hevr⟩
        rw [hfil] at this
        cases this
    · intro _
      refine ⟨hn.symm, ?_⟩
      rw [List.filter_filter, List.filter_eq_nil_iff]
      intro t _
      simp
  case isFalse hempty =>
    rw [Except.ok.injEq, Prod.mk.injEq] at h
    obtain ⟨hdb, hn⟩ := h
    subst hdb
    constructor
    · intro e
      rw [← counts_key_mem db rid e, ← rankEntries_event_mem _ rid now e]
      constructor
      · rintro ⟨t, ht, htr, hte⟩
        rcases List.mem_append.mp ht with hold | hnew
        · have := (List.mem_filter.mp hold).2
          rw [bne_iff_ne] at this
          exact absurd htr this
        · exact ⟨t, hnew, hte⟩
      · rintro ⟨t, ht, hte⟩
        exact ⟨t, List.mem_append.mpr (Or.inr ht),
          rankEntries_region _ rid now t ht, hte⟩
    · intro hfil
      exfalso
      have : _get_event_interaction_counts db rid = [] := by
        simp only [_get_event_interaction_counts, hfil, List.map_nil]
      rw [this] at hempty
      simp at hempty

/-- A trend row with its `updated_at` timestamp forgotten: what "byte-identical
except `updated_at`" compares. -/
def stripTime (t : TrendRec) : Nat × Nat × Nat × Nat × Nat × Nat :=
  (t.region_id, t.event_id, t.rank, t.attendance_count, t.comments_count,
   t.likes_count)

/-- Interaction counting reads only events and interaction tables, never the
trend rows. -/
theorem counts_trends_invariant (db : DB) (tr : List TrendRec) (rid : Nat) :
    _get_event_interaction_counts { db with trends := tr } rid
      = _get_event_interaction_counts db rid := rfl

theorem rankEntries_stripTime (entries : List (Nat × Nat × Nat × Nat))
    (rid now1 now2 : Nat) :
    (rankEntries entries rid now1).map stripTime
      = (rankEntries entries rid now2).map stripTime := by
  unfold rankEntries
  rw [List.map_map, List.map_map]
  rfl

theorem filter_rankEntries_ne (entries : List (Nat × Nat × Nat × Nat))
    (rid now : Nat) :
    (rankEntries entries rid now).filter (fun t => t.region_id != rid) = [] := by
  rw [List.filter_eq_nil_iff]
  intro t ht
  have := rankEntries_region entries rid now t ht
  simp [this]

theorem filter_ne_idem (tr : List TrendRec) (rid : Nat) :
    (tr.filter (fun t => t.region_id != rid)).filter (fun t => t.region_id != rid)
      = tr.filter (fun t => t.region_id != rid) :=
  List.filter_eq_self.mpr (fun a ha => (List.mem_filter.mp ha).2)

/-- C6: rebuild is idempotent: a second rebuild with unchanged events and
interaction data returns the same count and stores rows identical in every
field except `updated_at`. -/
theorem rebuild_idempotent (db : DB) (region : RegionParam) (now1 now2 : Nat)
    (db1 : DB) (n1 : Nat) (db2 : DB) (n2 : Nat)
    (h1 : rebuild_trends db region now1 = Except.ok (db1, n1))
    (h2 : rebuild_trends db1 region now2 = Except.ok (db2, n2)) :
    n2 = n1 ∧ db2.trends.map stripTime = db1.trends.map stripTime := by
  rcases heq : parse_region_param region with msg | r
  · simp only [rebuild_trends, heq] at h1
    simp at h1
  · simp only [rebuild_trends, heq] at h1
    simp only [rebuild_trends, heq] at h2
    split at h1
    case isTrue hempty =>
      rw [Except.ok.injEq, Prod.mk.injEq] at h1
      obtain ⟨hdb1, hn1⟩ := h1
      subst hdb1
      rw [counts_trends_invariant] at h2
      simp only [hempty, if_true] at h2
      rw [Except.ok.injEq, Prod.mk.injEq] at h2
      obtain ⟨hdb2, hn2⟩ := h2
      subst hdb2
      refine ⟨hn2.symm.trans hn1, ?_⟩
      simp only [filter_ne_idem]
    case isFalse hempty =>
      rw [Except.ok.injEq, Prod.mk.injEq] at h1
      obtain ⟨hdb1, hn1⟩ := h1
      subst hdb1
      rw [counts_trends_invariant] at h2
      simp only [hempty, if_false, Bool.false_eq_true] at h2
      rw [Except.ok.injEq, Prod.mk.injEq] at h2
      obtain ⟨hdb2, hn2⟩ := h2
      subst hdb2
      refine ⟨hn2.symm.trans hn1, ?_⟩
      rw [List.filter_append, filter_ne_idem, filter_rankEntries_ne,
        List.append_nil, List.map_append, List.map_append,
        rankEntries_stripTime _ _ now2 now1]

/-! Helper lemmas for the update endpoint. -/

theorem filter_eq_of_filter_ne (l : List TrendRec) (rid : Nat) :
    (l.filter (fun t => t.region_id != rid)).filter (fun t => t.region_id == rid)
      = [] := by
  rw [List.filter_filter, List.filter_eq_nil_iff]
  intro t _
  by_cases hb : t.region_id = rid <;> simp [hb]

theorem pairwise_enumFrom {α : Type} {R : α → α → Prop} :
    ∀ (n : Nat) {l : List α}, l.Pairwise R →
      (l.enumFrom n).Pairwise (fun p q => p.1 < q.1 ∧ R p.2 q.2) := by
  intro n l
  induction l generalizing n with
  | nil => intro _; exact List.Pairwise.nil
  | cons a l ih =>
      intro hp
      rw [List.pairwise_cons] at hp
      simp only [List.enumFrom]
      rw [List.pairwise_cons]
      refine ⟨fun q hq => ?_, ih (n + 1) hp.2⟩
      obtain ⟨h1, h2⟩ := mem_of_mem_enumFrom hq
      exact ⟨Nat.lt_of_succ_le h1, hp.1 _ h2⟩

theorem renumber_map_rank (l : List TrendRec) :
    (renumber l).map (fun t => t.rank) = List.range' 1 l.length := by
  unfold renumber
  rw [List.map_map]
  exact List.enumFrom_map_fst 1 l

theorem renumber_length (l : List TrendRec) : (renumber l).length = l.length := by
  unfold renumber
  rw [List.length_map, List.enumFrom_length]

theorem renumber_mem {l : List TrendRec} {t : TrendRec} (ht : t ∈ renumber l) :
    ∃ u ∈ l, ∃ k : Nat, t = { u with rank := k } := by
  simp only [renumber, List.mem_map] at ht
  obtain ⟨p, hp, rfl⟩ := ht
  exact ⟨p.2, snd_mem_of_mem_enumFrom hp, p.1, rfl⟩

theorem renumber_pairwise {l : List TrendRec} (hl : l.Pairwise trendLe) :
    (renumber l).Pairwise (fun t u => t.rank < u.rank ∧ trendLe t u) := by
  unfold renumber
  rw [List.pairwise_map]
  exact (pairwise_enumFrom 1 hl).imp (fun h => h)

theorem mem_region_of_mem_sorted2 {trends1 : List TrendRec} {rid : Nat} {u : TrendRec}
    (hu : u ∈ ((trends1.filter (fun t => t.region_id == rid)).insertionSort rankLe).insertionSort
        trendLe) :
    u ∈ trends1.filter (fun t => t.region_id == rid) :=
  (List.perm_insertionSort rankLe _).mem_iff.mp
    ((List.perm_insertionSort trendLe _).mem_iff.mp hu)

/-- On a successful update, the final trend rows of the resolved region are
exactly the renumbered, counts-sorted rows of the post-upsert store. -/
theorem update_success_shape (db : DB) (payload : TrendUpdateBody) (now rid : Nat)
    (db2 : DB)
    (hrid : parse_region_param payload.region = Except.ok rid)
    (h : update_trends db payload now = Except.ok db2) :
    ∃ trends1 : List TrendRec,
      trends1 = upsertTrend db.trends rid payload.event_id
          (liveCountsOf db rid payload.event_id).1
          (liveCountsOf db rid payload.event_id).2.1
          (liveCountsOf db rid payload.event_id).2.2 now
      ∧ db2.trends = trends1.filter (fun t => t.region_id != rid)
          ++ renumber (((trends1.filter (fun t => t.region_id == rid)).insertionSort
              rankLe).insertionSort trendLe) := by
  simp only [update_trends, hrid] at h
  unfold update_trends_core at h
  split at h
  · simp at h
  case h_2 event hfind =>
    split at h
    case isTrue hreg =>
      split at h
      case isTrue => simp at h
      case isFalse hlen =>
        simp only [Except.ok.injEq] at h
        subst h
        exact ⟨_, rfl, rfl⟩
    case isFalse => simp at h

/-- C2: after a successful update, the resolved region's stored ranks are a
permutation of `1..N` and the rank order agrees with the descending
(attendance, comments, likes) tie-break on each row's stored counts. -/
theorem update_rank_permutation (db : DB) (payload : TrendUpdateBody) (now rid : Nat)
    (db2 : DB)
    (hrid : parse_region_param payload.region = Except.ok rid)
    (h : update_trends db payload now = Except.ok db2) :
    ((db2.trends.filter (fun t => t.region_id == rid)).map (fun t => t.rank)).Perm
        (List.range' 1 (db2.trends.filter (fun t => t.region_id == rid)).length)
    ∧ (∀ t ∈ db2.trends.filter (fun t => t.region_id == rid),
        ∀ u ∈ db2.trends.filter (fun t => t.region_id == rid),
          t.rank < u.rank → trendLe t u) := by
  obtain ⟨trends1, -, hdb2⟩ := update_success_shape db payload now rid db2 hrid h
  set rows2 := ((trends1.filter (fun t => t.region_id == rid)).insertionSort
      rankLe).insertionSort trendLe with hrows2
  have hregion : ∀ t ∈ renumber rows2, t.region_id = rid := by
    intro t ht
    obtain ⟨u, hu, k, rfl⟩ := renumber_mem ht
    have := (List.mem_filter.mp (mem_region_of_mem_sorted2 hu)).2
    simpa using this
  have hfil : db2.trends.filter (fun t => t.region_id == rid) = renumber rows2 := by
    rw [hdb2, List.filter_append, filter_eq_of_filter_ne, List.nil_append]
    exact List.filter_eq_self.mpr (fun t ht => by simp [hregion t ht])
  rw [hfil]
  constructor
  · have hmr := renumber_map_rank rows2
    rw [← renumber_length rows2] at hmr
    exact hmr ▸ List.Perm.refl _
  · have hsorted : rows2.Pairwise trendLe := List.sorted_insertionSort trendLe _
    have hpair := renumber_pairwise hsorted
    have hsym : (renumber rows2).Pairwise (fun t u =>
        (t.rank < u.rank ∧ trendLe t u) ∨ (u.rank < t.rank ∧ trendLe u t)) :=
      hpair.imp (fun h => Or.inl h)
    have hforall := List.Pairwise.forall (R := fun t u =>
        (t.rank < u.rank ∧ trendLe t u) ∨ (u.rank < t.rank ∧ trendLe u t))
      (fun a b hab => hab.symm) hsym
    intro t ht u hu hrank
    have hne : t ≠ u := fun he => absurd hrank (by rw [he]; exact Nat.lt_irrefl _)
    rcases hforall ht hu hne with ⟨-, hle⟩ | ⟨hlt, -⟩
    · exact hle
    · exact absurd hrank (Nat.lt_asymm hlt)

/-- The in-place updater of the upsert's existing-row branch. -/
def upsertWrite (rid eid a c l now : Nat) (t : TrendRec) : TrendRec :=
  if trendKeyP rid eid t then
    { t with attendance_count := a, comments_count := c, likes_count := l,
             updated_at := now }
  else t

theorem upsertWrite_key (rid eid a c l now r e : Nat) (t : TrendRec) :
    trendKeyP r e (upsertWrite rid eid a c l now t) = trendKeyP r e t := by
  unfold upsertWrite
  split <;> rfl

theorem upsertTrend_eq_branches (trends : List TrendRec) (rid eid a c l now : Nat) :
    upsertTrend trends rid eid a c l now =
      if (trends.filter (trendKeyP rid eid)).isEmpty then
        trends ++ [insertedRow trends rid eid a c l now]
      else trends.map (upsertWrite rid eid a c l now) := rfl

theorem insertedRow_key (trends : List TrendRec) (rid eid a c l now : Nat) :
    trendKeyP rid eid (insertedRow trends rid eid a c l now) = true := by
  simp [trendKeyP, insertedRow]

/-- C4: with the unique constraint on `(region_id, event_id)` holding before
the call, the upsert either (a) rewrites the existing row's counts and
timestamp in place, creating no second row, keeping every rank, and leaving
all other rows unchanged, or (b) appends a fresh row ranked
`max rank in region + 1` (rank 1 when the region holds no rows); in both
cases at most one row per `(region, event)` pair remains. -/
theorem upsert_contract (trends : List TrendRec) (rid eid a c l now : Nat)
    (huniq : ∀ r e : Nat, ((trends.filter (trendKeyP r e)).length ≤ 1)) :
    ((∃ t ∈ trends, trendKeyP rid eid t = true) →
        (upsertTrend trends rid eid a c l now).length = trends.length
        ∧ (upsertTrend trends rid eid a c l now).filter (trendKeyP rid eid)
            = (trends.filter (trendKeyP rid eid)).map (fun t =>
                { t with attendance_count := a, comments_count := c,
                         likes_count := l, updated_at := now })
        ∧ (upsertTrend trends rid eid a c l now).map (fun t => t.rank)
            = trends.map (fun t => t.rank)
        ∧ (upsertTrend trends rid eid a c l now).filter
              (fun t => !(trendKeyP rid eid t))
            = trends.filter (fun t => !(trendKeyP rid eid t)))
    ∧ ((¬ ∃ t ∈ trends, trendKeyP rid eid t = true) →
        upsertTrend trends rid eid a c l now
          = trends ++ [insertedRow trends rid eid a c l now])
    ∧ (trends.filter (fun t => t.region_id == rid) = [] →
        maxRank trends rid + 1 = 1)
    ∧ (∀ r e : Nat,
        ((upsertTrend trends rid eid a c l now).filter (trendKeyP r e)).length ≤ 1) := by
  constructor
  · intro hex
    have hne : trends.filter (trendKeyP rid eid) ≠ [] := by
      obtain ⟨t, ht, hk⟩ := hex
      intro hnil
      have : t ∈ trends.filter (trendKeyP rid eid) := List.mem_filter.mpr ⟨ht, hk⟩
      rw [hnil] at this
      cases this
    have hguard : (trends.filter (trendKeyP rid eid)).isEmpty = false := by
      rw [List.isEmpty_eq_false]
      exact hne
    rw [upsertTrend_eq_branches, hguard]
    simp only [Bool.false_eq_true, if_false]
    refine ⟨List.length_map trends _, ?_, ?_, ?_⟩
    · rw [List.filter_map]
      have hcomp : (trendKeyP rid eid ∘ upsertWrite rid eid a c l now)
          = trendKeyP rid eid := by
        funext t
        exact upsertWrite_key rid eid a c l now rid eid t
      rw [hcomp]
      refine List.map_congr_left (fun t ht => ?_)
      have hk := (List.mem_filter.mp ht).2
      unfold upsertWrite
      rw [if_pos hk]
    · rw [List.map_map]
      refine List.map_congr_left (fun t _ => ?_)
      unfold Function.comp upsertWrite
      split <;> rfl
    · rw [List.filter_map]
      have hcomp : ((fun t => !(trendKeyP rid eid t)) ∘ upsertWrite rid eid a c l now)
          = fun t => !(trendKeyP rid eid t) := by
        funext t
        simp only [Function.comp]
        rw [upsertWrite_key]
      rw [hcomp]
      refine (List.map_congr_left (fun t ht => ?_)).trans (List.map_id _)
      have hk := (List.mem_filter.mp ht).2
      rw [Bool.not_eq_true'] at hk
      unfold upsertWrite
      rw [if_neg (by simp [hk])]
      rfl
  · constructor
    · intro hnex
      have hnil : trends.filter (trendKeyP rid eid) = [] := by
        rw [List.filter_eq_nil_iff]
        intro t ht hk
        exact hnex ⟨t, ht, hk⟩
      rw [upsertTrend_eq_branches, hnil]
      rfl
    · constructor
      · intro hnil
        have : maxRank trends rid = 0 := by
          unfold maxRank
          rw [hnil]
          rfl
        rw [this]
      · intro r e
        rw [upsertTrend_eq_branches]
        split
        case isTrue hemp =>
          rw [List.filter_append]
          by_cases hk : trendKeyP r e (insertedRow trends rid eid a c l now) = true
          · have hre : r = rid ∧ e = eid := by
              revert hk
              unfold trendKeyP insertedRow
              intro hk
              simp only [Bool.and_eq_true, beq_iff_eq] at hk
              exact ⟨hk.1.symm, hk.2.symm⟩
            obtain ⟨rfl, rfl⟩ := hre
            rw [List.isEmpty_iff.mp hemp, List.nil_append]
            exact (List.length_filter_le _ _).trans (by simp)
          · have hnil : List.filter (trendKeyP r e)
                [insertedRow trends rid eid a c l now] = [] := by
              rw [List.filter_eq_nil_iff]
              intro t ht
              rw [List.mem_singleton] at ht
              subst ht
              exact fun hc => hk hc
            rw [hnil, List.append_nil]
            exact huniq r e
        case isFalse =>
          rw [List.filter_map]
          have hcomp : (trendKeyP r e ∘ upsertWrite rid eid a c l now)
              = trendKeyP r e := by
            funext t
            exact upsertWrite_key rid eid a c l now r e t
          rw [hcomp, List.length_map]
          exact huniq r e

theorem upsert_key_counts (trends : List TrendRec) (rid eid a c l now : Nat) :
    ∀ t ∈ upsertTrend trends rid eid a c l now, trendKeyP rid eid t = true →
      t.attendance_count = a ∧ t.comments_count = c ∧ t.likes_count = l := by
  intro t ht hk
  rw [upsertTrend_eq_branches] at ht
  split at ht
  case isTrue hemp =>
    rcases List.mem_append.mp ht with hold | hnew
    · exfalso
      have hmem : t ∈ trends.filter (trendKeyP rid eid) :=
        List.mem_filter.mpr ⟨hold, hk⟩
      rw [List.isEmpty_iff.mp hemp] at hmem
      cases hmem
    · rw [List.mem_singleton] at hnew
      subst hnew
      exact ⟨rfl, rfl, rfl⟩
  case isFalse =>
    obtain ⟨u, hu, rfl⟩ := List.mem_map.mp ht
    unfold upsertWrite at hk ⊢
    by_cases hku : trendKeyP rid eid u = true
    · rw [if_pos hku]
      exact ⟨rfl, rfl, rfl⟩
    · rw [if_neg hku] at hk
      exact absurd hk hku

theorem upsert_nonkey_mem (trends : List TrendRec) (rid eid a c l now : Nat) :
    ∀ t ∈ upsertTrend trends rid eid a c l now, trendKeyP rid eid t = false →
      t ∈ trends := by
  intro t ht hk
  rw [upsertTrend_eq_branches] at ht
  split at ht
  case isTrue =>
    rcases List.mem_append.mp ht with hold | hnew
    · exact hold
    · rw [List.mem_singleton] at hnew
      subst hnew
      rw [insertedRow_key] at hk
      cases hk
  case isFalse =>
    obtain ⟨u, hu, rfl⟩ := List.mem_map.mp ht
    unfold upsertWrite at hk ⊢
    by_cases hku : trendKeyP rid eid u = true
    · exfalso
      rw [if_pos hku] at hk
      have heq : trendKeyP rid eid u = false := hk
      rw [hku] at heq
      cases heq
    · rw [if_neg hku]
      exact hu

/-- C5: a successful update rewrites only the target event's stored counts
with the freshly recomputed live counts; every other row of the region
keeps the snapshot counts of some pre-call row for the same event (its
last-persisted, possibly stale, values). -/
theorem update_frame (db : DB) (payload : TrendUpdateBody) (now rid : Nat)
    (db2 : DB)
    (hrid : parse_region_param payload.region = Except.ok rid)
    (h : update_trends db payload now = Except.ok db2) :
    (∀ t ∈ db2.trends, t.region_id = rid → t.event_id = payload.event_id →
        (t.attendance_count, t.comments_count, t.likes_count)
          = liveCountsOf db rid payload.event_id)
    ∧ (∀ t ∈ db2.trends, t.region_id = rid → t.event_id ≠ payload.event_id →
        ∃ u ∈ db.trends, u.region_id = rid ∧ u.event_id = t.event_id
          ∧ u.attendance_count = t.attendance_count
          ∧ u.comments_count = t.comments_count
          ∧ u.likes_count = t.likes_count) := by
  obtain ⟨trends1, htr1, hdb2⟩ := update_success_shape db payload now rid db2 hrid h
  have hsrc : ∀ t ∈ db2.trends, t.region_id = rid →
      ∃ u ∈ trends1, u.region_id = rid ∧ u.event_id = t.event_id
        ∧ u.attendance_count = t.attendance_count
        ∧ u.comments_count = t.comments_count
        ∧ u.likes_count = t.likes_count := by
    intro t ht htr
    rw [hdb2] at ht
    rcases List.mem_append.mp ht with hold | hnew
    · have hne := (List.mem_filter.mp hold).2
      rw [bne_iff_ne] at hne
      exact absurd htr hne
    · obtain ⟨u, hu, k, rfl⟩ := renumber_mem hnew
      have hu1 := List.mem_filter.mp (mem_region_of_mem_sorted2 hu)
      refine ⟨u, hu1.1, by simpa using hu1.2, rfl, rfl, rfl, rfl⟩
  constructor
  · intro t ht htr hte
    obtain ⟨u, hu1, hur, hue, ha, hc, hl⟩ := hsrc t ht htr
    have hku : trendKeyP rid payload.event_id u = true := by
      unfold trendKeyP
      rw [hue, hte]
      simp [hur]
    have := upsert_key_counts db.trends rid payload.event_id _ _ _ now u
      (htr1 ▸ hu1) hku
    rw [ha, hc, hl] at this
    obtain ⟨h1, h2, h3⟩ := this
    rw [h1, h2, h3]
  · intro t ht htr hte
    obtain ⟨u, hu1, hur, hue, ha, hc, hl⟩ := hsrc t ht htr
    have hku : trendKeyP rid payload.event_id u = false := by
      unfold trendKeyP
      rw [hue]
      simp [hte]
    exact ⟨u, upsert_nonkey_mem db.trends rid payload.event_id _ _ _ now u
      (htr1 ▸ hu1) hku, hur, hue, ha, hc, hl⟩

/-- C7: with the region resolved, the update fails with `EventNotFound`
(HTTP 404) exactly when no event carries the requested id or the looked-up
event belongs to a different region; and any failing update leaves the
store untouched (the transaction yields the original state). -/
theorem update_not_found_iff (db : DB) (payload : TrendUpdateBody) (now rid : Nat)
    (hrid : parse_region_param payload.region = Except.ok rid) :
    (update_trends db payload now = Except.error ApiError.eventNotFound ↔
      ((∀ e ∈ db.events, e.id ≠ payload.event_id)
        ∨ ∃ ev, db.events.find? (fun e => e.id == payload.event_id) = some ev
            ∧ ev.region_id ≠ rid))
    ∧ ApiError.eventNotFound.status = 404
    ∧ (∀ (q : TrendUpdateBody) (err : ApiError),
        update_trends db q now = Except.error err →
        runUpdate db q now = (db, some err)) := by
  refine ⟨?_, rfl, ?_⟩
  · simp only [update_trends, hrid]
    unfold update_trends_core
    split
    case h_1 hfind =>
      refine iff_of_true rfl (Or.inl (fun e he hid => ?_))
      rw [List.find?_eq_none] at hfind
      exact hfind e he (by simp [hid])
    case h_2 ev hfind =>
      by_cases hreg : ev.region_id = rid
      · rw [if_pos hreg]
        have hrhs : ¬ ((∀ e ∈ db.events, e.id ≠ payload.event_id)
            ∨ ∃ ev2, (db.events.find? (fun e => e.id == payload.event_id)
                = some ev2) ∧ ev2.region_id ≠ rid) := by
          rintro (hnone | ⟨ev2, hev2, hev2r⟩)
          · have hall := hnone ev (List.mem_of_find?_eq_some hfind)
            have hbeq := List.find?_some hfind
            rw [beq_iff_eq] at hbeq
            exact hall hbeq
          · rw [hfind, Option.some.injEq] at hev2
            subst hev2
            exact hev2r hreg
        split
        · exact iff_of_false (by simp) hrhs
        · exact iff_of_false (by simp) hrhs
      · rw [if_neg hreg]
        exact iff_of_true rfl (Or.inr ⟨ev, hfind, hreg⟩)
  · intro q err herr
    unfold runUpdate
    rw [herr]

/-- C8: the update endpoint's result is independent of the optional `rank`
field of the request body: any two requested ranks (including omitting the
field) produce identical stores and responses. -/
theorem update_rank_param_ignored (db : DB) (region : RegionParam) (eid : Nat)
    (r1 r2 : Option Nat) (now : Nat) :
    update_trends db { region := region, event_id := eid, rank := r1 } now
      = update_trends db { region := region, event_id := eid, rank := r2 } now := rfl

/-! A store state violating the cascade invariant, and what the read
endpoint does with it. -/

/-- A live event of region 0. -/
def ghostEvent : EventRec :=
  { id := 1, region_id := 0, user_id := none, title := "live" }

/-- Trend row for the live event. -/
def ghostRow1 : TrendRec :=
  { region_id := 0, event_id := 1, rank := 1, attendance_count := 0,
    comments_count := 0, likes_count := 0, updated_at := 10 }

/-- Trend row referencing event id 99, which no longer exists. -/
def ghostRow2 : TrendRec :=
  { region_id := 0, event_id := 99, rank := 2, attendance_count := 0,
    comments_count := 0, likes_count := 0, updated_at := 10 }

/-- Store whose trend list holds a row for a deleted event. -/
def dbGhost : DB :=
  { events := [ghostEvent], likes := [], comments := [], attending := [],
    trends := [ghostRow1, ghostRow2] }

/-- The read response for the surviving row. -/
def ghostEntry : TrendEntryRead :=
  { event_id := 1, rank := 1, title := "live", attendance_count := 0,
    comments_count := 0, likes_count := 0, updated_at := 10 }

/-- C9 (divergence witness): on a store where trend row `(region 0, event 99,
rank 2)` references a missing event, the read endpoint answers success and
silently omits that row — the INNER JOIN drops it — instead of reporting a
fatal consistency error as specified. -/
theorem get_trends_silently_skips_missing_event :
    get_trends dbGhost (.str "san diego") 0 50 = Except.ok [ghostEntry]
    ∧ (∃ t ∈ dbGhost.trends, t.region_id = 0
        ∧ ∀ e ∈ dbGhost.events, e.id ≠ t.event_id) := by
  constructor
  · rfl
  · refine ⟨ghostRow2, by simp [dbGhost], rfl, ?_⟩
    intro e he
    simp only [dbGhost, List.mem_singleton] at he
    subst he
    simp [ghostEvent, ghostRow2]

/-- C10: region resolution yields the canonical region id 0 exactly for the
integer 0, a string whose stripped lowercase form is `"0"`, or a string
whose strip/lower/hyphen-to-space normalization is `"san diego"`; every
other input raises `ValueError`, which all three endpoints surface as the
400 `InvalidRegion` client error. -/
theorem region_resolution_exact (db : DB) (skip lim eid now : Nat)
    (rk : Option Nat) :
    (∀ (v : RegionParam) (r : Nat), parse_region_param v = Except.ok r → r = 0)
    ∧ (∀ i : Int, parse_region_param (.int i) = Except.ok 0 ↔ i = 0)
    ∧ (∀ s : String, parse_region_param (.str s) = Except.ok 0 ↔
        (pyLower (pyStrip s) = "0"
          ∨ pyReplaceDash (pyLower (pyStrip s)) = "san diego"))
    ∧ (∀ v : RegionParam, (∃ msg, parse_region_param v = Except.error msg) →
        get_trends db v skip lim = Except.error ApiError.invalidRegion
        ∧ rebuild_trends db v now = Except.error ApiError.invalidRegion
        ∧ update_trends db { region := v, event_id := eid, rank := rk } now
            = Except.error ApiError.invalidRegion)
    ∧ ApiError.invalidRegion.status = 400 := by
  refine ⟨?_, ?_, ?_, ?_, rfl⟩
  · intro v r h
    cases v with
    | str s =>
        simp only [parse_region_param] at h
        split at h
        · rw [Except.ok.injEq] at h
          exact h.symm
        · split at h
          · rw [Except.ok.injEq] at h
            exact h.symm
          · simp at h
    | int i =>
        simp only [parse_region_param] at h
        split at h
        · rw [Except.ok.injEq] at h
          exact h.symm
        · simp at h
  · intro i
    simp only [parse_region_param]
    split
    case isTrue hi => exact iff_of_true rfl hi
    case isFalse hi => exact iff_of_false (by simp) hi
  · intro s
    simp only [parse_region_param]
    split
    case isTrue h1 => exact iff_of_true rfl (Or.inl h1)
    case isFalse h1 =>
      split
      case isTrue h2 => exact iff_of_true rfl (Or.inr h2)
      case isFalse h2 =>
        refine iff_of_false (by simp) ?_
        rintro (hc | hc)
        · exact h1 hc
        · exact h2 hc
  · rintro v ⟨msg, hmsg⟩
    refine ⟨?_, ?_, ?_⟩
    · simp only [get_trends, hmsg]
    · simp only [rebuild_trends, hmsg]
    · simp only [update_trends, hmsg]

/-! Concrete instances witnessing that the claim theorems' hypotheses are
satisfiable. -/

/-- A single event of the supported region. -/
def evW : EventRec := { id := 1, region_id := 0, user_id := none, title := "e" }

/-- Store with one event and no trend rows yet. -/
def dbW : DB :=
  { events := [evW], likes := [], comments := [], attending := [], trends := [] }

/-- The trend row both mutation paths produce for that event. -/
def rowW (now : Nat) : TrendRec :=
  { region_id := 0, event_id := 1, rank := 1, attendance_count := 0,
    comments_count := 0, likes_count := 0, updated_at := now }

/-- The store after ranking the single event. -/
def dbWafter (now : Nat) : DB := { dbW with trends := [rowW now] }

/-- Update request for the existing event, no rank requested. -/
def plW : TrendUpdateBody := { region := RegionParam.int 0, event_id := 1, rank := none }

/-- Update request for an event id that does not exist. -/
def plW99 : TrendUpdateBody := { region := RegionParam.int 0, event_id := 99, rank := none }

/-- Witness for the C2 theorem: hypotheses hold at a concrete store and the
conclusion follows by the theorem. -/
theorem update_rank_permutation_witness :
    update_trends dbW plW 7 = Except.ok (dbWafter 7)
    ∧ ((((dbWafter 7).trends.filter (fun t => t.region_id == 0)).map
          (fun t => t.rank)).Perm
        (List.range' 1 ((dbWafter 7).trends.filter (fun t => t.region_id == 0)).length)
      ∧ (∀ t ∈ (dbWafter 7).trends.filter (fun t => t.region_id == 0),
          ∀ u ∈ (dbWafter 7).trends.filter (fun t => t.region_id == 0),
            t.rank < u.rank → trendLe t u)) :=
  ⟨rfl, update_rank_permutation dbW plW 7 0 (dbWafter 7) rfl rfl⟩

/-- Witness for the C3 theorem at a concrete store. -/
theorem rebuild_completeness_witness :
    rebuild_trends dbW (RegionParam.int 0) 5 = Except.ok (dbWafter 5, 1)
    ∧ ((∀ e : Nat, (∃ t ∈ (dbWafter 5).trends, t.region_id = 0 ∧ t.event_id = e) ↔
          (∃ ev ∈ dbW.events, ev.region_id = 0 ∧ ev.id = e))
      ∧ (dbW.events.filter (fun ev => ev.region_id == 0) = [] →
          (1 : Nat) = 0 ∧ (dbWafter 5).trends.filter (fun t => t.region_id == 0) = [])) :=
  ⟨rfl, rebuild_completeness dbW (RegionParam.int 0) 5 0 (dbWafter 5) 1 rfl rfl⟩

/-- Witness for the C4 theorem on a one-row store. -/
theorem upsert_contract_witness :
    (∀ r e : Nat, (([rowW 3].filter (trendKeyP r e)).length ≤ 1))
    ∧ (((∃ t ∈ [rowW 3], trendKeyP 0 1 t = true) →
          (upsertTrend [rowW 3] 0 1 4 5 6 9).length = [rowW 3].length
          ∧ (upsertTrend [rowW 3] 0 1 4 5 6 9).filter (trendKeyP 0 1)
              = (([rowW 3].filter (trendKeyP 0 1)).map (fun t =>
                  { t with attendance_count := 4, comments_count := 5,
                           likes_count := 6, updated_at := 9 }))
          ∧ (upsertTrend [rowW 3] 0 1 4 5 6 9).map (fun t => t.rank)
              = [rowW 3].map (fun t => t.rank)
          ∧ (upsertTrend [rowW 3] 0 1 4 5 6 9).filter
                (fun t => !(trendKeyP 0 1 t))
              = [rowW 3].filter (fun t => !(trendKeyP 0 1 t)))
      ∧ ((¬ ∃ t ∈ [rowW 3], trendKeyP 0 1 t = true) →
          upsertTrend [rowW 3] 0 1 4 5 6 9
            = [rowW 3] ++ [insertedRow [rowW 3] 0 1 4 5 6 9])
      ∧ ([rowW 3].filter (fun t => t.region_id == 0) = [] →
          maxRank [rowW 3] 0 + 1 = 1)
      ∧ (∀ r e : Nat,
          ((upsertTrend [rowW 3] 0 1 4 5 6 9).filter (trendKeyP r e)).length ≤ 1)) :=
  ⟨fun r e => (List.length_filter_le _ _).trans (Nat.le_refl 1),
   upsert_contract [rowW 3] 0 1 4 5 6 9
     (fun r e => (List.length_filter_le _ _).trans (Nat.le_refl 1))⟩

/-- Witness for the C5 theorem at a concrete store. -/
theorem update_frame_witness :
    update_trends dbW plW 7 = Except.ok (dbWafter 7)
    ∧ ((∀ t ∈ (dbWafter 7).trends, t.region_id = 0 → t.event_id = plW.event_id →
          (t.attendance_count, t.comments_count, t.likes_count)
            = liveCountsOf dbW 0 plW.event_id)
      ∧ (∀ t ∈ (dbWafter 7).trends, t.region_id = 0 → t.event_id ≠ plW.event_id →
          ∃ u ∈ dbW.trends, u.region_id = 0 ∧ u.event_id = t.event_id
            ∧ u.attendance_count = t.attendance_count
            ∧ u.comments_count = t.comments_count
            ∧ u.likes_count = t.likes_count)) :=
  ⟨rfl, update_frame dbW plW 7 0 (dbWafter 7) rfl rfl⟩

/-- Witness for the C6 theorem: two successive rebuilds of the same store. -/
theorem rebuild_idempotent_witness :
    rebuild_trends dbW (RegionParam.int 0) 5 = Except.ok (dbWafter 5, 1)
    ∧ rebuild_trends (dbWafter 5) (RegionParam.int 0) 6 = Except.ok (dbWafter 6, 1)
    ∧ ((1 : Nat) = 1
      ∧ (dbWafter 6).trends.map stripTime = (dbWafter 5).trends.map stripTime) :=
  ⟨rfl, rfl,
   rebuild_idempotent dbW (RegionParam.int 0) 5 6 (dbWafter 5) 1 (dbWafter 6) 1 rfl rfl⟩

/-- Witness for the C7 theorem: request for a missing event id. -/
theorem update_not_found_iff_witness :
    parse_region_param plW99.region = Except.ok 0
    ∧ ((update_trends dbW plW99 7 = Except.error ApiError.eventNotFound ↔
          ((∀ e ∈ dbW.events, e.id ≠ plW99.event_id)
            ∨ ∃ ev, dbW.events.find? (fun e => e.id == plW99.event_id) = some ev
                ∧ ev.region_id ≠ 0))
      ∧ ApiError.eventNotFound.status = 404
      ∧ (∀ (q : TrendUpdateBody) (err : ApiError),
          update_trends dbW q 7 = Except.error err →
          runUpdate dbW q 7 = (dbW, some err))) :=
  ⟨rfl, update_not_found_iff dbW plW99 7 0 rfl⟩

/-- Update request carrying an unresolvable region token. -/
def plMars : TrendUpdateBody :=
  { region := RegionParam.str "mars", event_id := 1, rank := none }

/-- Witness for the C10 theorem: an unresolvable region token is rejected by
all three endpoints with the 400 error. -/
theorem region_resolution_exact_witness :
    (∃ msg, parse_region_param (RegionParam.str "mars") = Except.error msg)
    ∧ (get_trends dbW (RegionParam.str "mars") 0 50
          = Except.error ApiError.invalidRegion
      ∧ rebuild_trends dbW (RegionParam.str "mars") 5
          = Except.error ApiError.invalidRegion
      ∧ update_trends dbW plMars 5
          = Except.error ApiError.invalidRegion) :=
  ⟨⟨_, rfl⟩,
   (region_resolution_exact dbW 0 50 1 5 none).2.2.2.1 (RegionParam.str "mars")
     ⟨_, rfl⟩⟩

end CityPulse
